import Mathlib

/-!
# Verification of the commit-timeline ingestion and aggregation pipeline

Shallow embedding of the core of the `timeline` repository:

* `src/src/timeline.js` — orchestrator (`generateTimeline`) and the
  per-repository date bucketing (`groupByDate`);
* `src/src/providers/github.js`, `gitlab.js`, `bitbucket.js`,
  `sourcehut.js` — the four platform providers and their pagination loops;
* `src/utils/stats.ts` — the statistics module (`calculateStats`).

Network calls are modelled by passing the (already parsed) HTTP responses
as explicit arguments; thrown JavaScript exceptions are modelled with
`Except String`; console/spinner warnings are modelled as an explicit
event list on the run state.
-/

namespace Timeline

open List

/-- Decidable equality of `Except` values, used to evaluate concrete
runs in witnesses. -/
instance {ε α : Type} [DecidableEq ε] [DecidableEq α] : DecidableEq (Except ε α) :=
  fun x y =>
    match x, y with
    | .error a, .error b =>
      if h : a = b then .isTrue (by rw [h])
      else .isFalse (fun hc => h (by cases hc; rfl))
    | .error _, .ok _ => .isFalse (fun hc => Except.noConfusion hc)
    | .ok _, .error _ => .isFalse (fun hc => Except.noConfusion hc)
    | .ok a, .ok b =>
      if h : a = b then .isTrue (by rw [h])
      else .isFalse (fun hc => h (by cases hc; rfl))

/-! ## Calendar model

The platforms deliver commit timestamps as ISO-8601 strings
(`YYYY-MM-DDThh:mm:ss±oo:oo` or `...Z`).  A well-formed timestamp string
is modelled by the structure `Timestamp` below: the first ten characters
of the string are exactly the written calendar date (`date`), and the
trailing offset is `offsetMinutes`.  JavaScript `Date` values (used by the
TypeScript variant of `groupByDate`) are modelled as the epoch-second
count the string parses to. -/
/-- A written calendar date, i.e. the `YYYY-MM-DD` part of an ISO-8601
timestamp string. -/
structure CivilDate where
  year : Nat
  month : Nat
  day : Nat
deriving DecidableEq, Repr

/-- Proleptic Gregorian leap-year test. -/
def isLeap (y : Nat) : Bool :=
  (y % 4 == 0 && y % 100 != 0) || (y % 400 == 0)

/-- Length of a month (`1`–`12`); `0` for an out-of-range month index. -/
def monthLength (leap : Bool) (m : Nat) : Nat :=
  match m with
  | 1 => 31
  | 2 => if leap then 29 else 28
  | 3 => 31
  | 4 => 30
  | 5 => 31
  | 6 => 30
  | 7 => 31
  | 8 => 31
  | 9 => 30
  | 10 => 31
  | 11 => 30
  | 12 => 31
  | _ => 0

/-- Days in the months strictly before month `m` of a non-leap year;
`400` is an out-of-range sentinel. -/
def daysBeforeMonthBase (m : Nat) : Nat :=
  match m with
  | 1 => 0
  | 2 => 31
  | 3 => 59
  | 4 => 90
  | 5 => 120
  | 6 => 151
  | 7 => 181
  | 8 => 212
  | 9 => 243
  | 10 => 273
  | 11 => 304
  | 12 => 334
  | _ => 400

/-- Days in the months strictly before month `m`. -/
def daysBeforeMonth (leap : Bool) (m : Nat) : Nat :=
  daysBeforeMonthBase m + (if leap && decide (3 ≤ m) then 1 else 0)

/-- Number of leap years among `0, 1, …, y-1` (year `0` is a leap year). -/
def leapsBefore (y : Nat) : Nat :=
  (y + 3) / 4 - (y + 99) / 100 + (y + 399) / 400

/-- Days in the years strictly before year `y` (counting from year `0`). -/
def daysBeforeYear (y : Nat) : Nat :=
  365 * y + leapsBefore y

/-- Number of days in year `y`. -/
def daysInYear (y : Nat) : Nat :=
  if isLeap y then 366 else 365

/-- A written date is valid when its month and day are in range.  Commit
timestamps delivered by the platforms always carry valid dates. -/
def CivilDate.valid (d : CivilDate) : Bool :=
  1 ≤ d.month && d.month ≤ 12 && 1 ≤ d.day && d.day ≤ monthLength (isLeap d.year) d.month

/-- Day index of a written date, counting from `0000-01-01` (day `0`).
This models the value `new Date("YYYY-MM-DD")` sorts by (up to the fixed
epoch offset, which cancels in every comparison). -/
def daysFromCivil (d : CivilDate) : Nat :=
  daysBeforeYear d.year + daysBeforeMonth (isLeap d.year) d.month + (d.day - 1)

/-! ## Timestamps

A well-formed ISO-8601 timestamp string `YYYY-MM-DDThh:mm:ss±oo:oo`.
Its first ten characters are exactly the written date `date`, so
`c.date.slice(0, 10)` in `src/src/timeline.js` is modelled by the `date`
projection.  `offsetMinutes` is the written timezone offset (`0` for a
trailing `Z`). -/
structure Timestamp where
  date : CivilDate
  hour : Nat
  minute : Nat
  second : Nat
  offsetMinutes : Int
deriving DecidableEq, Repr

/-- Epoch seconds (relative to `0000-01-01T00:00:00Z`) that
`Date.parse` assigns to the timestamp string: the written wall-clock time
minus the written offset. -/
def Timestamp.epochSeconds (t : Timestamp) : Int :=
  (daysFromCivil t.date : Int) * 86400 + t.hour * 3600 + t.minute * 60 + t.second
    - t.offsetMinutes * 60

/-- UTC day index of the timestamp: the day that
`new Date(s).toISOString().slice(0, 10)` shows.  `Int.fdiv` is floor
division, matching the calendar roll-over of negative offsets. -/
def Timestamp.utcDay (t : Timestamp) : Int :=
  Int.fdiv t.epochSeconds 86400

/-- A commit as built by every provider's `fetchAllCommits`
(`{ date, author, message, isMerge }`); `date` is the raw ISO-8601
timestamp string delivered by the platform. -/
structure Commit where
  date : Timestamp
  author : String
  message : String
  isMerge : Bool
deriving DecidableEq, Repr

/-! ## Stable sorting

`Array.prototype.sort` is stable (ECMAScript 2019).  Every sort in the
source uses a numeric ascending comparator (`new Date(a) - new Date(b)`
on date labels; `b.commits - a.commits`, i.e. ascending in the negated
total, on repository totals; the default lexicographic sort on label
strings).  A stable ascending sort by an integer key is insertion sort
that inserts each element after the existing elements with a key less
than or equal to its own. -/
/-- Insert `x` into `l` (sorted ascending by `f`), after all elements
whose key is `≤ f x`. -/
def insertSorted (f : α → Int) (x : α) : List α → List α
  | [] => [x]
  | y :: ys => if f y ≤ f x then y :: insertSorted f x ys else x :: y :: ys

/-- Stable ascending sort by key `f`: left-to-right insertion. -/
def sortByKey (f : α → Int) (l : List α) : List α :=
  l.foldl (fun acc x => insertSorted f x acc) []

/-! ## Date bucketing (`groupByDate`)

`src/src/timeline.js` builds `map` — a plain object whose string keys are
`c.date.slice(0, 10)` in first-insertion order — then sorts
`Object.entries(map)` ascending by `new Date(key)` and splits the entries
into `labels` and `data`.  The TypeScript variant in `src/timeline.ts`
is identical except that the key is `c.date.toISOString().slice(0, 10)`,
i.e. the UTC day of the `Date` value.  Both are instances of the generic
grouping below. -/
/-- `map[key] = (map[key] || 0) + 1` on an insertion-ordered object. -/
def bump [DecidableEq κ] : List (κ × Nat) → κ → List (κ × Nat)
  | [], k => [(k, 1)]
  | (k', n) :: rest, k =>
    if k' = k then (k', n + 1) :: rest else (k', n) :: bump rest k

/-- The `for (const c of commits) map[key(c)]++` loop. -/
def buildMapBy [DecidableEq κ] (key : α → κ) (l : List α) : List (κ × Nat) :=
  l.foldl (fun m c => bump m (key c)) []

/-- Output of `groupByDate`: `labels` and `data` of equal length. -/
structure GroupedG (κ : Type) where
  labels : List κ
  data : List Nat
deriving DecidableEq, Repr

/-- Generic `groupByDate`: group by `key`, sort the entries ascending by
the numeric sort key `sk` of the group key, split into labels/data. -/
def groupByDateBy [DecidableEq κ] (key : α → κ) (sk : κ → Int) (commits : List α) :
    GroupedG κ :=
  let entries := sortByKey (fun e => sk e.1) (buildMapBy key commits)
  { labels := entries.map (·.1), data := entries.map (·.2) }

/-- `groupByDate` of `src/src/timeline.js`: the key is
`c.date.slice(0, 10)` — the written date of the timestamp string — and
the comparator `new Date(a) - new Date(b)` sorts by the day index of the
written date. -/
def groupByDate (commits : List Commit) : GroupedG CivilDate :=
  groupByDateBy (fun c => c.date.date) (fun d => (daysFromCivil d : Int)) commits

/-- A commit of the TypeScript pipeline (`src/types/index.ts`): `date` is
a JavaScript `Date`, modelled by its epoch-second count. -/
structure CommitTs where
  sha : String
  message : String
  author : String
  date : Int
  repository : String
deriving DecidableEq, Repr

/-- UTC day index of a `Date` value: the day shown by
`toISOString().slice(0, 10)`. -/
def tsUtcDay (epochSeconds : Int) : Int := Int.fdiv epochSeconds 86400

/-- `groupByDate` of `src/timeline.ts`: the key is
`c.date.toISOString().slice(0, 10)`, i.e. the UTC day of the `Date`. -/
def groupByDateTs (commits : List CommitTs) : GroupedG Int :=
  groupByDateBy (fun c => tsUtcDay c.date) (fun d => d) commits

/-! ## The orchestrator (`generateTimeline`, `src/src/timeline.js`)

The per-repository loop.  `fetch` stands for
`provider.fetchAllCommits(repo, config)`: the per-repository outcome of
the provider call (`Except.error` models a thrown exception).  Spinner
`warn` messages (`⚠ Skipped <repo>: <reason>`) are modelled as the
`warnings` event list, recorded only when `verbose` — `info`-level
progress messages are not modelled.  The chart-styling fields of a
dataset (`borderWidth`, `fill`, `tension`, random `borderColor`) carry no
data and are omitted. -/
/-- One entry of `datasets`. -/
structure ChartDataset where
  label : String
  data : List Nat
  labels : List CivilDate
deriving DecidableEq, Repr

/-- The loop state of `generateTimeline`. -/
structure RunState where
  datasets : List ChartDataset
  totalCommits : Nat
  processedRepos : Nat
  skippedRepos : Nat
  errors : List (String × String)
  warnings : List (String × String)
deriving DecidableEq, Repr

/-- State before the loop (`timeline.js` lines 54–58). -/
def initState : RunState := ⟨[], 0, 0, 0, [], []⟩

/-- The body of `for (const repo of reposToProcess) { … }`
(`timeline.js` lines 60–109). -/
def stepRepo (verbose : Bool) (fetch : String → Except String (List Commit))
    (st : RunState) (repo : String) : RunState :=
  let st := { st with processedRepos := st.processedRepos + 1 }
  match fetch repo with
  | .error msg =>
    { st with skippedRepos := st.skippedRepos + 1,
              errors := st.errors ++ [(repo, msg)],
              warnings := st.warnings ++ (if verbose then [(repo, msg)] else []) }
  | .ok commits =>
    if commits.length = 0 then
      { st with skippedRepos := st.skippedRepos + 1,
                warnings := st.warnings ++
                  (if verbose then [(repo, "No commits found")] else []) }
    else
      let grouped := groupByDate commits
      if 0 < grouped.data.length then
        { st with datasets := st.datasets ++ [⟨repo, grouped.data, grouped.labels⟩],
                  totalCommits := st.totalCommits + commits.length }
      else st

/-- The whole repository loop. -/
def runRepos (verbose : Bool) (fetch : String → Except String (List Commit)) :
    List String → RunState → RunState
  | [], st => st
  | r :: rs, st => runRepos verbose fetch rs (stepRepo verbose fetch st r)

/-- `timeline.js` line 113. -/
def msgAllFailed : String :=
  "No data to generate chart. All repositories failed or are empty."

/-- `timeline.js` line 115. -/
def msgNoCommits : String := "No repositories with commits found"

/-- Repository-list resolution (`timeline.js` lines 31–51): keep an
explicit non-empty list, otherwise consult `fetchRepos`; a failure or an
empty discovery result is fatal, wrapped by the catch into
`Failed to fetch repositories: …`. -/
def resolveRepos (username platform : String)
    (fetchRepos : Except String (List String)) (repos : List String) :
    Except String (List String) :=
  if repos.length = 0 then
    match fetchRepos with
    | .error e => .error ("Failed to fetch repositories: " ++ e)
    | .ok rs =>
      if rs.length = 0 then
        .error ("Failed to fetch repositories: No repositories found for user '" ++
          username ++ "' on " ++ platform)
      else .ok rs
  else .ok repos

/-- The post-loop aggregate check (`timeline.js` lines 111–116). -/
def finishRun (st : RunState) : Except String RunState :=
  if st.datasets.length = 0 then
    if 0 < st.errors.length then .error msgAllFailed
    else .error msgNoCommits
  else .ok st

/-- `generateTimeline` (`timeline.js` lines 16–138), up to the hand-off
to the rendering collaborator.  `fetchRepos` stands for the outcome of
`provider.fetchRepos()` and is consulted only when the caller supplied no
explicit repository list. -/
def generateTimeline (verbose : Bool) (username platform : String)
    (fetchRepos : Except String (List String)) (repos : List String)
    (fetch : String → Except String (List Commit)) : Except String RunState :=
  match resolveRepos username platform fetchRepos repos with
  | .error e => .error e
  | .ok reposToProcess => finishRun (runRepos verbose fetch reposToProcess initState)

/-- A repository contributes a series iff its fetch succeeded with a
non-empty commit list. -/
def keeps (fetch : String → Except String (List Commit)) (r : String) : Bool :=
  match fetch r with
  | .ok cs => if cs.length = 0 then false else true
  | .error _ => false

/-- The commits a repository's fetch delivered (`[]` on failure). -/
def commitsOf (fetch : String → Except String (List Commit)) (r : String) :
    List Commit :=
  match fetch r with
  | .ok cs => cs
  | .error _ => []

/-- The dataset a kept repository contributes. -/
def mkDataset (fetch : String → Except String (List Commit)) (r : String) :
    ChartDataset :=
  ⟨r, (groupByDate (commitsOf fetch r)).data, (groupByDate (commitsOf fetch r)).labels⟩

/-- The error record a repository contributes (failures only). -/
def errOf (fetch : String → Except String (List Commit)) (r : String) :
    Option (String × String) :=
  match fetch r with
  | .error e => some (r, e)
  | .ok _ => none

/-- The skip warning a repository contributes. -/
def warnOf (fetch : String → Except String (List Commit)) (r : String) :
    Option (String × String) :=
  match fetch r with
  | .error e => some (r, e)
  | .ok cs => if cs.length = 0 then some (r, "No commits found") else none

/-! ## GitHub provider (`src/src/providers/github.js`)

`fetchCommits(repo, page)` is modelled by an environment
`pages : Nat → Except String (List GHRawCommit)` giving the outcome of
the page-`page` request (a 409 "empty repository" response is already
`.ok []` there, as in the source).  The `while (true)` loop of
`fetchAllCommits` increments `page` and stops at `page > 10`; it runs at
most 10 iterations, so it is written with a fuel argument of 10 that the
loop's own bound keeps from ever reaching 0. -/
/-- One element of the GitHub commit-list response; `parents` is the
number of entries of `c.parents` (0 when the field is absent). -/
structure GHRawCommit where
  date : Timestamp
  author : String
  message : String
  parents : Nat
deriving DecidableEq, Repr

/-- `{ date: c.commit.author.date, author: …, message: …, isMerge: c.parents && c.parents.length > 1 }`. -/
def ghConv (c : GHRawCommit) : Commit :=
  ⟨c.date, c.author, c.message, decide (1 < c.parents)⟩

/-- The pagination loop of `GitHubProvider.fetchAllCommits`, returning
the accumulated commits (or the propagated failure) and the number of
page requests issued. -/
def ghWalk (pages : Nat → Except String (List GHRawCommit)) :
    Nat → Nat → Except String (List Commit) × Nat
  | _, 0 => (.ok [], 0)
  | page, fuel + 1 =>
    match pages page with
    | .error e => (.error e, 1)
    | .ok cs =>
      if cs.length = 0 then (.ok [], 1)
      else if 10 < page + 1 then (.ok (cs.map ghConv), 1)
      else
        match ghWalk pages (page + 1) fuel with
        | (.error e, n) => (.error e, n + 1)
        | (.ok rest, n) => (.ok (cs.map ghConv ++ rest), n + 1)

/-- Does `hay` begin with `needle`? -/
def charsLeadWith : List Char → List Char → Bool
  | [], _ => true
  | _ :: _, [] => false
  | a :: as, b :: bs => a == b && charsLeadWith as bs

/-- Does `hay` contain `needle` as a contiguous segment? -/
def charsContain (needle : List Char) : List Char → Bool
  | [] => charsLeadWith needle []
  | b :: bs => charsLeadWith needle (b :: bs) || charsContain needle bs

/-- `error.message.includes('409')`-style containment test. -/
def containsSub (needle hay : String) : Bool :=
  charsContain needle.toList hay.toList

/-- `GitHubProvider.fetchAllCommits(repo, config)`:
walk up to 10 pages, filter merge commits if `config.includeMerges ===
false`, and map a caught error containing `409` to an empty repository. -/
def fetchAllCommitsGH (pages : Nat → Except String (List GHRawCommit))
    (includeMerges : Bool) : Except String (List Commit) :=
  match (ghWalk pages 1 10).1 with
  | .ok all => .ok (if includeMerges then all else all.filter (fun c => ! c.isMerge))
  | .error e => if containsSub "409" e then .ok [] else .error e

/-- Number of page requests `fetchAllCommits` issues. -/
def ghRequests (pages : Nat → Except String (List GHRawCommit)) : Nat :=
  (ghWalk pages 1 10).2

/-! ## Bitbucket provider (`src/src/providers/bitbucket.js`)

Cursor pagination: each response carries an opaque `next` URL; the
environment maps a cursor (`none` = the first-page URL) to the response. -/
/-- `c.author?.user?.display_name` / `c.author?.raw` structure. -/
structure BBUser where
  display_name : Option String
deriving DecidableEq, Repr

/-- The `author` field of a Bitbucket commit. -/
structure BBAuthor where
  user : Option BBUser
  raw : Option String
deriving DecidableEq, Repr

/-- One element of `data.values`. -/
structure BBRawCommit where
  date : Timestamp
  author : Option BBAuthor
  message : String
  parents : Nat
deriving DecidableEq, Repr

/-- `c.author?.user?.display_name || c.author?.raw || 'Unknown'`
(an empty string is falsy in JavaScript and falls through). -/
def bbAuthorName (a : Option BBAuthor) : String :=
  let rawName : String :=
    match a with
    | none => "Unknown"
    | some au =>
      match au.raw with
      | some r => if r = "" then "Unknown" else r
      | none => "Unknown"
  match a with
  | none => rawName
  | some au =>
    match au.user with
    | none => rawName
    | some u =>
      match u.display_name with
      | some n => if n = "" then rawName else n
      | none => rawName

/-- Conversion of one raw Bitbucket commit. -/
def bbConv (c : BBRawCommit) : Commit :=
  ⟨c.date, bbAuthorName c.author, c.message, decide (1 < c.parents)⟩

/-- A Bitbucket commit-list response: `values` (`[]` when the field is
absent, which the source skips the same way) and the optional `next`
cursor. -/
structure BBResp where
  values : List BBRawCommit
  next : Option String
deriving DecidableEq, Repr

/-- The cursor loop of `BitbucketProvider.fetchAllCommits`: accumulated
commits (or propagated failure) and the number of page requests. -/
def bbWalk (env : Option String → Except String BBResp) :
    Option String → Nat → Nat → Except String (List Commit) × Nat
  | _, _, 0 => (.ok [], 0)
  | cursor, pageCount, fuel + 1 =>
    match env cursor with
    | .error e => (.error e, 1)
    | .ok data =>
      let items := data.values.map bbConv
      match data.next with
      | none => (.ok items, 1)
      | some url =>
        if 10 ≤ pageCount + 1 then (.ok items, 1)
        else
          match bbWalk env (some url) (pageCount + 1) fuel with
          | (.error e, n) => (.error e, n + 1)
          | (.ok rest, n) => (.ok (items ++ rest), n + 1)

/-- `BitbucketProvider.fetchAllCommits(repo, config)`. -/
def fetchAllCommitsBB (env : Option String → Except String BBResp)
    (includeMerges : Bool) : Except String (List Commit) :=
  match (bbWalk env none 0 10).1 with
  | .ok all => .ok (if includeMerges then all else all.filter (fun c => ! c.isMerge))
  | .error e => .error e

/-- Number of page requests the Bitbucket walk issues. -/
def bbRequests (env : Option String → Except String BBResp) : Nat :=
  (bbWalk env none 0 10).2

/-- The raw pages the Bitbucket walk visits, for a failure-free
environment: same recursion as `bbWalk`, collecting `values`. -/
def bbVisited (env : Option String → BBResp) :
    Option String → Nat → Nat → List (List BBRawCommit)
  | _, _, 0 => []
  | cursor, pageCount, fuel + 1 =>
    let data := env cursor
    match data.next with
    | none => [data.values]
    | some url =>
      if 10 ≤ pageCount + 1 then [data.values]
      else data.values :: bbVisited env (some url) (pageCount + 1) fuel

/-! ## Repository listing (`fetchRepos` of the four providers)

Each `fetchRepos` is modelled over the parsed HTTP response of the
repository-listing endpoint; the provider's `catch` re-wrapping of
generic failures is composed into the non-404/403 branch. -/
/-- A parsed HTTP response: a body, or a failure status with its
status text. -/
inductive HttpResp (α : Type) where
  | ok (body : α)
  | err (status : Nat) (statusText : String)
deriving DecidableEq, Repr

/-- Fields of a GitHub repository object read by the source. -/
structure GHRepo where
  name : String
  fork : Bool
  size : Nat
deriving DecidableEq, Repr

/-- Result of `checkRateLimit` (`null` on any failure). -/
structure RateLimitInfo where
  remaining : Nat
  limit : Nat
  resetText : String
deriving DecidableEq, Repr

/-- `GitHubProvider.fetchRepos`: 404 → user not found; 403 → rate-limit
message (detailed when `checkRateLimit` returned `remaining === 0`);
other failures re-wrapped by the catch; success → repositories filtered
by `!r.fork && r.size > 0`, mapped to names. -/
def githubFetchRepos (username : String) (rateInfo : Option RateLimitInfo)
    (resp : HttpResp (List GHRepo)) : Except String (List String) :=
  match resp with
  | .ok data => .ok ((data.filter (fun r => (! r.fork) && decide (0 < r.size))).map (fun r => r.name))
  | .err status text =>
    if status = 404 then
      .error ("User '" ++ username ++ "' not found on GitHub")
    else if status = 403 then
      match rateInfo with
      | some ri =>
        if ri.remaining = 0 then
          .error ("GitHub rate limit exceeded. Resets at " ++ ri.resetText ++
            ". Use a GitHub token to increase limit (export GITHUB_TOKEN=your_token)")
        else
          .error "GitHub API rate limit exceeded. Please wait or use authentication token (export GITHUB_TOKEN=your_token)"
      | none =>
        .error "GitHub API rate limit exceeded. Please wait or use authentication token (export GITHUB_TOKEN=your_token)"
    else
      .error ("GitHub API error: Failed to fetch repos: " ++ text)

/-- A GitLab user-lookup result entry (only `id` is read). -/
structure GLUser where
  id : Nat
deriving DecidableEq, Repr

/-- A GitLab project.  The source reads only `path`; `empty_repo` is the
platform's emptiness flag, carried in the model to state whether empty
projects are filtered (they are not — no filter is applied). -/
structure GLProject where
  path : String
  empty_repo : Bool
deriving DecidableEq, Repr

/-- `GitLabProvider.fetchRepos` (`src/src/providers/gitlab.js`): resolve
the username to a user id, then list that user's projects, applying no
filter. -/
def gitlabFetchRepos (userResp : HttpResp (List GLUser))
    (projResp : Nat → HttpResp (List GLProject)) : Except String (List String) :=
  match userResp with
  | .err _ text => .error ("Failed to fetch user: " ++ text)
  | .ok users =>
    match users with
    | [] => .error "User not found"
    | u :: _ =>
      match projResp u.id with
      | .err _ text => .error ("Failed to fetch projects: " ++ text)
      | .ok data => .ok (data.map (fun p => p.path))

/-- Fields of a Bitbucket repository object read by the source. -/
structure BBRepo where
  slug : String
  size : Nat
deriving DecidableEq, Repr

/-- `BitbucketProvider.fetchRepos`: 404 → user not found; other failures
re-wrapped by the catch; success → repositories filtered by `r.size > 0`,
mapped to slugs. -/
def bitbucketFetchRepos (username : String) (resp : HttpResp (List BBRepo)) :
    Except String (List String) :=
  match resp with
  | .ok data => .ok ((data.filter (fun r => decide (0 < r.size))).map (fun r => r.slug))
  | .err status text =>
    if status = 404 then
      .error ("User '" ++ username ++ "' not found on Bitbucket")
    else
      .error ("Bitbucket API error: Failed to fetch repos: " ++ text)

/-- Fields of a SourceHut repository object read by the source
(`commits_count` is `0` when the field is absent — absent is falsy). -/
structure SHRepo where
  name : String
  commits_count : Nat
deriving DecidableEq, Repr

/-- `SourceHutProvider.fetchRepos`: 404 → user not found; other failures
re-wrapped; success → repositories filtered by
`r.commits_count && r.commits_count > 0`, mapped to names. -/
def sourcehutFetchRepos (username : String) (resp : HttpResp (List SHRepo)) :
    Except String (List String) :=
  match resp with
  | .ok data => .ok ((data.filter (fun r => decide (0 < r.commits_count))).map (fun r => r.name))
  | .err status text =>
    if status = 404 then
      .error ("User '" ++ username ++ "' not found on SourceHut")
    else
      .error ("SourceHut API error: Failed to fetch repos: " ++ text)

/-! ## Statistics module (`calculateStats`, `src/utils/stats.ts`)

`topRepos.sort((a, b) => b.commits - a.commits)` is a stable sort
descending in `commits`, i.e. the stable ascending sort by the negated
total.  `allDates` is deduplicated with `[...new Set(...)]` (first
occurrences kept) and sorted with the default lexicographic string sort,
which on `YYYY-MM-DD` labels (4-digit years) orders by
`year·10000 + month·100 + day`.  The floating-point display value
`averageCommitsPerDay` (`toFixed(2)` of an IEEE quotient) is not
modelled; `averageCommitsPerRepo` is `Math.round(total / count)`, exact
round-half-up on these magnitudes. -/
/-- One entry of `topRepos`. -/
structure StatsRepo where
  name : String
  commits : Nat
deriving DecidableEq, Repr

/-- The `dateRange` record (`endDate` models the `end` field, which is a
reserved word in Lean). -/
structure DateRange where
  start : Option CivilDate
  endDate : Option CivilDate
  days : Nat
deriving DecidableEq, Repr

/-- The result record of `calculateStats`. -/
structure StatsResult where
  totalCommits : Nat
  repositoriesAnalyzed : Nat
  dateRange : DateRange
  topRepos : List StatsRepo
  averageCommitsPerRepo : Nat
deriving DecidableEq, Repr

/-- Sort key of the default (lexicographic) string sort on `YYYY-MM-DD`. -/
def lexKey (d : CivilDate) : Int :=
  (d.year * 10000 + d.month * 100 + d.day : Int)

/-- Per-repository totals in dataset order (the `topRepos.push` loop). -/
def statsTotals (datasets : List ChartDataset) : List StatsRepo :=
  datasets.map (fun d => ⟨d.label, d.data.sum⟩)

/-- Sort key of `(a, b) => b.commits - a.commits`: stable descending in
`commits` = stable ascending in the negated total. -/
def negTotal (rT : StatsRepo) : Int := -(rT.commits : Int)

/-- `calculateStats(datasets)`. -/
def calculateStats (datasets : List ChartDataset) : Option StatsResult :=
  if datasets.length = 0 then none
  else
    let totalCommits := (datasets.map (fun d => d.data.sum)).sum
    let topRepos := (sortByKey negTotal (statsTotals datasets)).take 5
    let allDates := (datasets.map (fun d => d.labels)).flatten
    let dateRange : DateRange :=
      if 0 < allDates.length then
        let sorted := sortByKey lexKey allDates.eraseDups
        let start := sorted.head?
        let stop := sorted.getLast?
        let days : Nat :=
          match start, stop with
          | some s, some e => daysFromCivil e - daysFromCivil s
          | _, _ => 0
        ⟨start, stop, days⟩
      else ⟨none, none, 0⟩
    some { totalCommits := totalCommits,
           repositoriesAnalyzed := datasets.length,
           dateRange := dateRange,
           topRepos := topRepos,
           averageCommitsPerRepo := (2 * totalCommits + datasets.length) / (2 * datasets.length) }

/-- Commits used by the C1 witness: three commits on two distinct days,
deliberately out of order. -/
def commitsC1 : List Commit :=
  [⟨⟨⟨2024, 3, 2⟩, 10, 30, 0, 0⟩, "alice", "m1", false⟩,
   ⟨⟨⟨2024, 3, 1⟩, 23, 59, 59, 0⟩, "bob", "m2", false⟩,
   ⟨⟨⟨2024, 3, 1⟩, 0, 0, 1, 0⟩, "carol", "m3", true⟩]

/-- Fetch environment for the C2 witness: one failing repository, one
empty repository, one with two commits on the same day. -/
def fetchC2 : String → Except String (List Commit) := fun r =>
  if r = "bad" then .error ("boom")
  else if r = "empty" then .ok []
  else .ok [⟨⟨⟨2024, 1, 5⟩, 8, 0, 0, 0⟩, "a", "x", false⟩,
            ⟨⟨⟨2024, 1, 5⟩, 9, 0, 0, 0⟩, "b", "y", false⟩]

/-- Fetch environment for the C4 witness. -/
def fetchC4 : String → Except String (List Commit) := fun r =>
  if r = "broken" then .error ("network down")
  else .ok [⟨⟨⟨2023, 12, 31⟩, 5, 0, 0, 0⟩, "a", "w", false⟩]

/-- Fetch environment for the C6 witness: one failed, one empty
repository. -/
def fetchC6 : String → Except String (List Commit) := fun r =>
  if r = "gone" then .error ("HTTP 500") else .ok []

/-- Fetch environment for C5: one empty repository, one repository with
a single commit. -/
def fetchC5 : String → Except String (List Commit) := fun r =>
  if r = "r1" then .ok []
  else .ok [⟨⟨⟨2024, 3, 1⟩, 12, 0, 0, 0⟩, "alice", "fix", false⟩]

/-- Commit with a UTC (`Z`) timestamp late on 2024-03-01. -/
def commitZ : Commit := ⟨⟨⟨2024, 3, 1⟩, 23, 0, 0, 0⟩, "a", "m", false⟩

/-- Commit stamped `2024-03-02T01:00:00+05:00`: its written day is
2024-03-02 but its UTC instant is 2024-03-01T20:00Z — the same UTC
calendar day as `commitZ`. -/
def commitOff : Commit := ⟨⟨⟨2024, 3, 2⟩, 1, 0, 0, 300⟩, "b", "n", false⟩

/-- A GitLab project whose repository the platform marks empty. -/
def glProjEmpty : GLProject := ⟨"empty-project", true⟩

/-- Datasets for the C9 witness: totals 10, 30, 10 — a tie between the
first and the third repository exercises stability. -/
def dsC9 : List ChartDataset :=
  [⟨"a", [5, 5], [⟨2024, 1, 1⟩, ⟨2024, 1, 2⟩]⟩,
   ⟨"b", [30], [⟨2024, 1, 3⟩]⟩,
   ⟨"c", [10], [⟨2024, 1, 4⟩]⟩]

/-! ## Theorems -/

theorem daysBeforeYear_succ (y : Nat) :
    daysBeforeYear (y + 1) = daysBeforeYear y + daysInYear y := by
  unfold daysBeforeYear leapsBefore daysInYear isLeap
  simp only [Bool.or_eq_true, Bool.and_eq_true, beq_iff_eq, bne_iff_ne, ne_eq]
  split
  · omega
  · omega

theorem daysBeforeYear_mono {y₁ y₂ : Nat} (h : y₁ ≤ y₂) :
    daysBeforeYear y₁ ≤ daysBeforeYear y₂ := by
  induction y₂ with
  | zero => simp [Nat.le_zero.mp h]
  | succ n ih =>
    rcases Nat.lt_or_ge y₁ (n + 1) with h' | h'
    · calc daysBeforeYear y₁ ≤ daysBeforeYear n := ih (by omega)
        _ ≤ daysBeforeYear (n + 1) := by rw [daysBeforeYear_succ]; omega
    · have : y₁ = n + 1 := by omega
      simp [this]

theorem dayOfYear_lt {d : CivilDate} (h : d.valid = true) :
    daysBeforeMonth (isLeap d.year) d.month + (d.day - 1) < daysInYear d.year := by
  unfold CivilDate.valid at h
  simp only [Bool.and_eq_true, decide_eq_true_eq] at h
  obtain ⟨⟨⟨h1, h2⟩, h3⟩, h4⟩ := h
  unfold daysBeforeMonth daysBeforeMonthBase daysInYear
  cases hL : isLeap d.year <;>
    (rw [hL] at h4; unfold monthLength at h4; interval_cases m : d.month <;> simp_all <;> omega)

theorem daysFromCivil_year_eq {d₁ d₂ : CivilDate}
    (h₁ : d₁.valid = true) (h₂ : d₂.valid = true)
    (h : daysFromCivil d₁ = daysFromCivil d₂) : d₁.year = d₂.year := by
  by_contra hne
  rcases Nat.lt_or_ge d₁.year d₂.year with hlt | hge
  · have hb := dayOfYear_lt h₁
    have hm : daysBeforeYear d₁.year + daysInYear d₁.year ≤ daysBeforeYear d₂.year := by
      calc daysBeforeYear d₁.year + daysInYear d₁.year
          = daysBeforeYear (d₁.year + 1) := (daysBeforeYear_succ d₁.year).symm
        _ ≤ daysBeforeYear d₂.year := daysBeforeYear_mono (by omega)
    unfold daysFromCivil at h
    omega
  · have hlt : d₂.year < d₁.year := by omega
    have hb := dayOfYear_lt h₂
    have hm : daysBeforeYear d₂.year + daysInYear d₂.year ≤ daysBeforeYear d₁.year := by
      calc daysBeforeYear d₂.year + daysInYear d₂.year
          = daysBeforeYear (d₂.year + 1) := (daysBeforeYear_succ d₂.year).symm
        _ ≤ daysBeforeYear d₁.year := daysBeforeYear_mono (by omega)
    unfold daysFromCivil at h
    omega

set_option maxHeartbeats 3200000 in
theorem dayOfYear_inj (L : Bool) {m₁ e₁ m₂ e₂ : Nat}
    (am1 : 1 ≤ m₁) (am2 : m₁ ≤ 12) (ad1 : 1 ≤ e₁) (ad2 : e₁ ≤ monthLength L m₁)
    (bm1 : 1 ≤ m₂) (bm2 : m₂ ≤ 12) (bd1 : 1 ≤ e₂) (bd2 : e₂ ≤ monthLength L m₂)
    (h : daysBeforeMonth L m₁ + (e₁ - 1) = daysBeforeMonth L m₂ + (e₂ - 1)) :
    m₁ = m₂ ∧ e₁ = e₂ := by
  cases L <;>
    (interval_cases m₁ <;> interval_cases m₂ <;>
      simp [monthLength, daysBeforeMonth, daysBeforeMonthBase] at ad2 bd2 h ⊢ <;>
      omega)

theorem daysFromCivil_inj {d₁ d₂ : CivilDate}
    (h₁ : d₁.valid = true) (h₂ : d₂.valid = true)
    (h : daysFromCivil d₁ = daysFromCivil d₂) : d₁ = d₂ := by
  have hy : d₁.year = d₂.year := daysFromCivil_year_eq h₁ h₂ h
  unfold daysFromCivil at h
  rw [hy] at h
  have h' : daysBeforeMonth (isLeap d₂.year) d₁.month + (d₁.day - 1) =
      daysBeforeMonth (isLeap d₂.year) d₂.month + (d₂.day - 1) := by omega
  unfold CivilDate.valid at h₁ h₂
  simp only [Bool.and_eq_true, decide_eq_true_eq] at h₁ h₂
  obtain ⟨⟨⟨a1, a2⟩, a3⟩, a4⟩ := h₁
  obtain ⟨⟨⟨b1, b2⟩, b3⟩, b4⟩ := h₂
  rw [hy] at a4
  have hmd := dayOfYear_inj (isLeap d₂.year) a1 a2 a3 a4 b1 b2 b3 b4 h'
  obtain ⟨y₁, m₁, e₁⟩ := d₁
  obtain ⟨y₂, m₂, e₂⟩ := d₂
  simp only [CivilDate.mk.injEq] at hy hmd ⊢
  exact ⟨hy, hmd.1, hmd.2⟩

theorem insertSorted_perm (f : α → Int) (x : α) (l : List α) :
    insertSorted f x l ~ x :: l := by
  induction l with
  | nil => rfl
  | cons y ys ih =>
    unfold insertSorted
    split
    · exact ((ih.cons y).trans (List.Perm.swap x y ys))
    · rfl

theorem sortByKey_perm_aux (f : α → Int) (l acc : List α) :
    l.foldl (fun acc x => insertSorted f x acc) acc ~ acc ++ l := by
  induction l generalizing acc with
  | nil => simp
  | cons x xs ih =>
    calc (x :: xs).foldl (fun acc x => insertSorted f x acc) acc
        = xs.foldl (fun acc x => insertSorted f x acc) (insertSorted f x acc) := rfl
      _ ~ insertSorted f x acc ++ xs := ih _
      _ ~ (x :: acc) ++ xs := (insertSorted_perm f x acc).append_right xs
      _ ~ acc ++ x :: xs := List.perm_middle.symm.trans (by simp)

theorem sortByKey_perm (f : α → Int) (l : List α) : sortByKey f l ~ l := by
  simpa using sortByKey_perm_aux f l []

theorem mem_insertSorted {f : α → Int} {x a : α} {l : List α} :
    a ∈ insertSorted f x l ↔ a = x ∨ a ∈ l := by
  have h := (insertSorted_perm f x l).mem_iff (a := a)
  simpa using h

theorem insertSorted_pairwise {f : α → Int} {x : α} {l : List α}
    (hl : l.Pairwise (fun a b => f a ≤ f b)) :
    (insertSorted f x l).Pairwise (fun a b => f a ≤ f b) := by
  induction l with
  | nil => simp [insertSorted]
  | cons y ys ih =>
    rw [List.pairwise_cons] at hl
    unfold insertSorted
    split
    · rename_i hyx
      rw [List.pairwise_cons]
      refine ⟨fun a ha => ?_, ih hl.2⟩
      rcases mem_insertSorted.mp ha with rfl | ha
      · exact hyx
      · exact hl.1 a ha
    · rename_i hyx
      rw [List.pairwise_cons]
      refine ⟨fun a ha => ?_, List.pairwise_cons.mpr hl⟩
      rcases List.mem_cons.mp ha with rfl | ha
      · omega
      · exact le_trans (by omega) (hl.1 a ha)

theorem sortByKey_pairwise_aux (f : α → Int) (l : List α) {acc : List α}
    (hacc : acc.Pairwise (fun a b => f a ≤ f b)) :
    (l.foldl (fun acc x => insertSorted f x acc) acc).Pairwise (fun a b => f a ≤ f b) := by
  induction l generalizing acc with
  | nil => exact hacc
  | cons x xs ih => exact ih (insertSorted_pairwise hacc)

/-- The sort output is ascending in the key. -/
theorem sortByKey_pairwise (f : α → Int) (l : List α) :
    (sortByKey f l).Pairwise (fun a b => f a ≤ f b) :=
  sortByKey_pairwise_aux f l List.Pairwise.nil

theorem filter_insertSorted {f : α → Int} (k : Int) (x : α) {acc : List α}
    (hacc : acc.Pairwise (fun a b => f a ≤ f b)) :
    (insertSorted f x acc).filter (fun a => f a == k) =
      acc.filter (fun a => f a == k) ++ (if f x == k then [x] else []) := by
  induction acc with
  | nil =>
    unfold insertSorted
    rw [List.filter_nil, List.nil_append, List.filter_cons, List.filter_nil]
  | cons y ys ih =>
    rw [List.pairwise_cons] at hacc
    unfold insertSorted
    split
    · rename_i hyx
      simp only [List.filter_cons]
      split <;> simp [ih hacc.2]
    · rename_i hyx
      by_cases hxk : f x == k
      · have hyk : ¬ (f y == k) := by
          simp only [beq_iff_eq] at hxk ⊢
          omega
        have hys : ∀ z ∈ ys, ¬ ((f z == k) = true) := by
          intro z hz
          have := hacc.1 z hz
          simp only [beq_iff_eq] at hxk ⊢
          omega
        have hnil : ys.filter (fun a => f a == k) = [] := List.filter_eq_nil_iff.mpr hys
        simp [List.filter_cons, hxk, hyk, hnil]
      · simp [List.filter_cons, hxk]

theorem sortByKey_filter_aux (f : α → Int) (k : Int) (l : List α) {acc : List α}
    (hacc : acc.Pairwise (fun a b => f a ≤ f b)) :
    (l.foldl (fun acc x => insertSorted f x acc) acc).filter (fun a => f a == k) =
      acc.filter (fun a => f a == k) ++ l.filter (fun a => f a == k) := by
  induction l generalizing acc with
  | nil => simp
  | cons x xs ih =>
    have step := ih (insertSorted_pairwise (x := x) hacc)
    calc ((x :: xs).foldl (fun acc x => insertSorted f x acc) acc).filter (fun a => f a == k)
        = (insertSorted f x acc).filter (fun a => f a == k) ++
            xs.filter (fun a => f a == k) := step
      _ = acc.filter (fun a => f a == k) ++ ((if f x == k then [x] else []) ++
            xs.filter (fun a => f a == k)) := by
          rw [filter_insertSorted k x hacc, List.append_assoc]
      _ = acc.filter (fun a => f a == k) ++ (x :: xs).filter (fun a => f a == k) := by
          rw [List.filter_cons]; split <;> simp

/-- Stability of the sort: within one key class, the output order is the
input order. -/
theorem sortByKey_filter (f : α → Int) (k : Int) (l : List α) :
    (sortByKey f l).filter (fun a => f a == k) = l.filter (fun a => f a == k) := by
  simpa using sortByKey_filter_aux f k l List.Pairwise.nil

section BuildMap

variable {κ : Type} [DecidableEq κ] {α : Type}

theorem bump_fst (m : List (κ × Nat)) (k : κ) :
    (bump m k).map Prod.fst =
      if k ∈ m.map Prod.fst then m.map Prod.fst else m.map Prod.fst ++ [k] := by
  induction m with
  | nil => simp [bump]
  | cons e rest ih =>
    obtain ⟨k', n⟩ := e
    unfold bump
    by_cases hk : k' = k
    · subst hk
      simp
    · have hk' : ¬ (k = k') := fun h => hk h.symm
      simp only [if_neg hk, List.map_cons, List.mem_cons, hk', false_or, ih]
      split <;> simp

theorem bump_snd_sum (m : List (κ × Nat)) (k : κ) :
    ((bump m k).map Prod.snd).sum = (m.map Prod.snd).sum + 1 := by
  induction m with
  | nil => simp [bump]
  | cons e rest ih =>
    obtain ⟨k', n⟩ := e
    unfold bump
    split
    · simp; omega
    · simp [ih]; omega

theorem bump_nodup {m : List (κ × Nat)} (k : κ) (h : (m.map Prod.fst).Nodup) :
    ((bump m k).map Prod.fst).Nodup := by
  rw [bump_fst]
  split
  · exact h
  · rename_i hk
    refine List.Nodup.append h (List.nodup_singleton k) ?_
    intro a ha hmem
    rw [List.mem_singleton] at hmem
    subst hmem
    exact hk ha

theorem bump_fst_subset {m : List (κ × Nat)} {k j : κ}
    (h : j ∈ (bump m k).map Prod.fst) : j ∈ m.map Prod.fst ∨ j = k := by
  rw [bump_fst] at h
  by_cases hk : k ∈ m.map Prod.fst
  · rw [if_pos hk] at h; exact Or.inl h
  · rw [if_neg hk] at h
    simpa using h

theorem buildMapBy_nodup_aux (key : α → κ) (l : List α) {acc : List (κ × Nat)}
    (hacc : (acc.map Prod.fst).Nodup) :
    (((l.foldl (fun m c => bump m (key c)) acc)).map Prod.fst).Nodup := by
  induction l generalizing acc with
  | nil => exact hacc
  | cons c cs ih => exact ih (bump_nodup (key c) hacc)

/-- The object keys (one per distinct date) are pairwise distinct. -/
theorem buildMapBy_nodup (key : α → κ) (l : List α) :
    ((buildMapBy key l).map Prod.fst).Nodup :=
  buildMapBy_nodup_aux key l List.nodup_nil

theorem buildMapBy_sum_aux (key : α → κ) (l : List α) (acc : List (κ × Nat)) :
    (((l.foldl (fun m c => bump m (key c)) acc)).map Prod.snd).sum =
      (acc.map Prod.snd).sum + l.length := by
  induction l generalizing acc with
  | nil => simp
  | cons c cs ih =>
    calc ((( (c :: cs).foldl (fun m c => bump m (key c)) acc)).map Prod.snd).sum
        = (((cs.foldl (fun m c => bump m (key c)) (bump acc (key c)))).map Prod.snd).sum := rfl
      _ = ((bump acc (key c)).map Prod.snd).sum + cs.length := ih _
      _ = (acc.map Prod.snd).sum + (c :: cs).length := by
          rw [bump_snd_sum]; simp; omega

/-- The counts in the object sum to the number of grouped items. -/
theorem buildMapBy_sum (key : α → κ) (l : List α) :
    ((buildMapBy key l).map Prod.snd).sum = l.length := by
  simpa using buildMapBy_sum_aux key l []

theorem buildMapBy_keys_aux (key : α → κ) (l : List α) {acc : List (κ × Nat)} {j : κ}
    (h : j ∈ ((l.foldl (fun m c => bump m (key c)) acc)).map Prod.fst) :
    j ∈ acc.map Prod.fst ∨ ∃ c ∈ l, key c = j := by
  induction l generalizing acc with
  | nil => exact Or.inl h
  | cons c cs ih =>
    rcases ih h with h' | h'
    · rcases bump_fst_subset h' with h'' | h''
      · exact Or.inl h''
      · exact Or.inr ⟨c, by simp, h''.symm⟩
    · obtain ⟨c', hc', hk⟩ := h'
      exact Or.inr ⟨c', by simp [hc'], hk⟩

/-- Every object key is the key of some grouped item. -/
theorem buildMapBy_keys (key : α → κ) (l : List α) {j : κ}
    (h : j ∈ (buildMapBy key l).map Prod.fst) : ∃ c ∈ l, key c = j := by
  rcases buildMapBy_keys_aux key l h with h' | h'
  · simp at h'
  · exact h'

theorem buildMapBy_single_aux (key : α → κ) (l : List α) (k : κ) (n : Nat)
    (h : ∀ c ∈ l, key c = k) :
    l.foldl (fun m c => bump m (key c)) [(k, n)] = [(k, n + l.length)] := by
  induction l generalizing n with
  | nil => simp
  | cons c cs ih =>
    have hc : key c = k := h c (by simp)
    have step : bump [(k, n)] (key c) = [(k, n + 1)] := by
      simp [bump, hc]
    calc (c :: cs).foldl (fun m c => bump m (key c)) [(k, n)]
        = cs.foldl (fun m c => bump m (key c)) (bump [(k, n)] (key c)) := rfl
      _ = cs.foldl (fun m c => bump m (key c)) [(k, n + 1)] := by rw [step]
      _ = [(k, n + 1 + cs.length)] := ih (n + 1) (fun c' hc' => h c' (by simp [hc']))
      _ = [(k, n + (c :: cs).length)] := by simp; omega

/-- Grouping items that all share one key yields a single entry. -/
theorem buildMapBy_single (key : α → κ) {l : List α} {k : κ}
    (hne : l ≠ []) (h : ∀ c ∈ l, key c = k) :
    buildMapBy key l = [(k, l.length)] := by
  obtain ⟨c, cs, rfl⟩ := List.exists_cons_of_ne_nil hne
  have hc : key c = k := h c (by simp)
  calc buildMapBy key (c :: cs)
      = cs.foldl (fun m c => bump m (key c)) (bump [] (key c)) := rfl
    _ = cs.foldl (fun m c => bump m (key c)) [(k, 1)] := by simp [bump, hc]
    _ = [(k, 1 + cs.length)] := buildMapBy_single_aux key cs k 1
          (fun c' hc' => h c' (by simp [hc']))
    _ = [(k, (c :: cs).length)] := by simp; omega

end BuildMap

section Grouping

variable {κ : Type} [DecidableEq κ] {α : Type}

/-- `labels` and `data` always have equal length. -/
theorem groupByDateBy_length (key : α → κ) (sk : κ → Int) (commits : List α) :
    (groupByDateBy key sk commits).labels.length =
      (groupByDateBy key sk commits).data.length := by
  simp [groupByDateBy]

/-- The counts sum to the number of input commits. -/
theorem groupByDateBy_sum (key : α → κ) (sk : κ → Int) (commits : List α) :
    (groupByDateBy key sk commits).data.sum = commits.length := by
  have hperm : sortByKey (fun e => sk e.1) (buildMapBy key commits) ~
      buildMapBy key commits := sortByKey_perm _ _
  calc (groupByDateBy key sk commits).data.sum
      = ((sortByKey (fun e => sk e.1) (buildMapBy key commits)).map Prod.snd).sum := rfl
    _ = ((buildMapBy key commits).map Prod.snd).sum := (hperm.map Prod.snd).sum_eq
    _ = commits.length := buildMapBy_sum key commits

/-- The labels are pairwise distinct. -/
theorem groupByDateBy_nodup (key : α → κ) (sk : κ → Int) (commits : List α) :
    (groupByDateBy key sk commits).labels.Nodup := by
  have hperm : sortByKey (fun e => sk e.1) (buildMapBy key commits) ~
      buildMapBy key commits := sortByKey_perm _ _
  exact ((hperm.map Prod.fst).nodup_iff).mpr (buildMapBy_nodup key commits)

/-- The labels are weakly ascending in the sort key. -/
theorem groupByDateBy_sorted (key : α → κ) (sk : κ → Int) (commits : List α) :
    (groupByDateBy key sk commits).labels.Pairwise (fun a b => sk a ≤ sk b) := by
  have h := sortByKey_pairwise (fun e : κ × Nat => sk e.1) (buildMapBy key commits)
  exact List.pairwise_map.mpr h

/-- Every label is the key of some input commit. -/
theorem groupByDateBy_label_mem (key : α → κ) (sk : κ → Int) (commits : List α)
    {j : κ} (h : j ∈ (groupByDateBy key sk commits).labels) :
    ∃ c ∈ commits, key c = j := by
  have hperm : sortByKey (fun e => sk e.1) (buildMapBy key commits) ~
      buildMapBy key commits := sortByKey_perm _ _
  exact buildMapBy_keys key commits (((hperm.map Prod.fst).mem_iff).mp h)

/-- Commits that all fall in one bucket produce exactly one label. -/
theorem groupByDateBy_single (key : α → κ) (sk : κ → Int) {commits : List α} {k : κ}
    (hne : commits ≠ []) (h : ∀ c ∈ commits, key c = k) :
    groupByDateBy key sk commits = ⟨[k], [commits.length]⟩ := by
  unfold groupByDateBy
  rw [buildMapBy_single key hne h]
  rfl

/-- A non-empty commit list yields a non-empty series. -/
theorem groupByDateBy_data_ne_nil (key : α → κ) (sk : κ → Int) {commits : List α}
    (hne : commits ≠ []) : (groupByDateBy key sk commits).data ≠ [] := by
  intro hnil
  have hsum := groupByDateBy_sum key sk commits
  rw [hnil] at hsum
  simp at hsum
  exact hne (List.length_eq_zero.mp hsum.symm)

end Grouping

/-- For input commits whose written dates are valid (as every platform
timestamp's is), the labels of `groupByDate` are strictly ascending as
dates. -/
theorem groupByDate_strictAscending {commits : List Commit}
    (h : ∀ c ∈ commits, c.date.date.valid = true) :
    (groupByDate commits).labels.Pairwise
      (fun a b => daysFromCivil a < daysFromCivil b) := by
  have hsorted := groupByDateBy_sorted (fun c : Commit => c.date.date)
    (fun d => (daysFromCivil d : Int)) commits
  have hnodup := groupByDateBy_nodup (fun c : Commit => c.date.date)
    (fun d => (daysFromCivil d : Int)) commits
  have hvalid : ∀ j ∈ (groupByDate commits).labels, j.valid = true := by
    intro j hj
    obtain ⟨c, hc, rfl⟩ := groupByDateBy_label_mem _ _ commits hj
    exact h c hc
  have hand := hsorted.and (List.Pairwise.imp (fun hne => hne) hnodup)
  refine hand.imp_of_mem ?_
  intro a b ha hb hab
  obtain ⟨hle, hne⟩ := hab
  have : daysFromCivil a ≠ daysFromCivil b := by
    intro he
    exact hne (daysFromCivil_inj (hvalid a ha) (hvalid b hb) he)
  omega

theorem stepRepo_err {fetch : String → Except String (List Commit)} {r : String}
    {e : String} (v : Bool) (st : RunState) (h : fetch r = .error e) :
    stepRepo v fetch st r =
      { st with processedRepos := st.processedRepos + 1,
                skippedRepos := st.skippedRepos + 1,
                errors := st.errors ++ [(r, e)],
                warnings := st.warnings ++ (if v then [(r, e)] else []) } := by
  simp [stepRepo, h]

theorem stepRepo_empty {fetch : String → Except String (List Commit)} {r : String}
    (v : Bool) (st : RunState) (h : fetch r = .ok []) :
    stepRepo v fetch st r =
      { st with processedRepos := st.processedRepos + 1,
                skippedRepos := st.skippedRepos + 1,
                warnings := st.warnings ++
                  (if v then [(r, "No commits found")] else []) } := by
  simp [stepRepo, h]

theorem stepRepo_ok {fetch : String → Except String (List Commit)} {r : String}
    {cs : List Commit} (v : Bool) (st : RunState) (h : fetch r = .ok cs)
    (hne : cs ≠ []) :
    stepRepo v fetch st r =
      { st with processedRepos := st.processedRepos + 1,
                datasets := st.datasets ++ [mkDataset fetch r],
                totalCommits := st.totalCommits + cs.length } := by
  have hlen : ¬ cs.length = 0 := fun h0 => hne (List.length_eq_zero.mp h0)
  have hdata : 0 < (groupByDate cs).data.length := by
    have := groupByDateBy_data_ne_nil (fun c : Commit => c.date.date)
      (fun d => (daysFromCivil d : Int)) hne
    exact List.length_pos.mpr this
  simp only [stepRepo, h, if_neg hlen, if_pos hdata, mkDataset, commitsOf]

theorem keeps_error {fetch : String → Except String (List Commit)} {r e : String}
    (h : fetch r = .error e) : keeps fetch r = false := by
  simp [keeps, h]

theorem keeps_empty {fetch : String → Except String (List Commit)} {r : String}
    (h : fetch r = .ok []) : keeps fetch r = false := by
  simp [keeps, h]

theorem keeps_ok {fetch : String → Except String (List Commit)} {r : String}
    {cs : List Commit} (h : fetch r = .ok cs) (hne : cs ≠ []) :
    keeps fetch r = true := by
  simp [keeps, h, List.length_eq_zero, hne]

theorem runRepos_datasets (v : Bool) (fetch : String → Except String (List Commit))
    (rs : List String) (st : RunState) :
    (runRepos v fetch rs st).datasets =
      st.datasets ++ (rs.filter (keeps fetch)).map (mkDataset fetch) := by
  induction rs generalizing st with
  | nil => simp [runRepos]
  | cons r rs ih =>
    simp only [runRepos]
    rw [ih]
    rcases hr : fetch r with e | cs
    · rw [stepRepo_err v st hr]
      simp [List.filter_cons, keeps_error hr]
    · by_cases hcs : cs = []
      · subst hcs
        rw [stepRepo_empty v st hr]
        simp [List.filter_cons, keeps_empty hr]
      · rw [stepRepo_ok v st hr hcs]
        simp [List.filter_cons, keeps_ok hr hcs]

theorem runRepos_totalCommits (v : Bool) (fetch : String → Except String (List Commit))
    (rs : List String) (st : RunState) :
    (runRepos v fetch rs st).totalCommits =
      st.totalCommits +
        ((rs.filter (keeps fetch)).map (fun r => (commitsOf fetch r).length)).sum := by
  induction rs generalizing st with
  | nil => simp [runRepos]
  | cons r rs ih =>
    simp only [runRepos]
    rw [ih]
    rcases hr : fetch r with e | cs
    · rw [stepRepo_err v st hr]
      simp [List.filter_cons, keeps_error hr]
    · by_cases hcs : cs = []
      · subst hcs
        rw [stepRepo_empty v st hr]
        simp [List.filter_cons, keeps_empty hr]
      · rw [stepRepo_ok v st hr hcs]
        simp [List.filter_cons, keeps_ok hr hcs, commitsOf, hr]
        omega

theorem runRepos_processed (v : Bool) (fetch : String → Except String (List Commit))
    (rs : List String) (st : RunState) :
    (runRepos v fetch rs st).processedRepos = st.processedRepos + rs.length := by
  induction rs generalizing st with
  | nil => simp [runRepos]
  | cons r rs ih =>
    simp only [runRepos]
    rw [ih]
    rcases hr : fetch r with e | cs
    · rw [stepRepo_err v st hr]; simp; omega
    · by_cases hcs : cs = []
      · subst hcs
        rw [stepRepo_empty v st hr]; simp; omega
      · rw [stepRepo_ok v st hr hcs]; simp; omega

theorem runRepos_skipped (v : Bool) (fetch : String → Except String (List Commit))
    (rs : List String) (st : RunState) :
    (runRepos v fetch rs st).skippedRepos =
      st.skippedRepos + rs.countP (fun r => ! keeps fetch r) := by
  induction rs generalizing st with
  | nil => simp [runRepos]
  | cons r rs ih =>
    simp only [runRepos]
    rw [ih]
    rcases hr : fetch r with e | cs
    · rw [stepRepo_err v st hr]
      simp [List.countP_cons, keeps_error hr]
      omega
    · by_cases hcs : cs = []
      · subst hcs
        rw [stepRepo_empty v st hr]
        simp [List.countP_cons, keeps_empty hr]
        omega
      · rw [stepRepo_ok v st hr hcs]
        simp [List.countP_cons, keeps_ok hr hcs]

theorem runRepos_errors (v : Bool) (fetch : String → Except String (List Commit))
    (rs : List String) (st : RunState) :
    (runRepos v fetch rs st).errors = st.errors ++ rs.filterMap (errOf fetch) := by
  induction rs generalizing st with
  | nil => simp [runRepos]
  | cons r rs ih =>
    simp only [runRepos]
    rw [ih]
    rcases hr : fetch r with e | cs
    · rw [stepRepo_err v st hr]
      simp [List.filterMap_cons, errOf, hr]
    · by_cases hcs : cs = []
      · subst hcs
        rw [stepRepo_empty v st hr]
        simp [List.filterMap_cons, errOf, hr]
      · rw [stepRepo_ok v st hr hcs]
        simp [List.filterMap_cons, errOf, hr]

theorem runRepos_warnings (v : Bool) (fetch : String → Except String (List Commit))
    (rs : List String) (st : RunState) :
    (runRepos v fetch rs st).warnings =
      st.warnings ++ (if v then rs.filterMap (warnOf fetch) else []) := by
  induction rs generalizing st with
  | nil => simp [runRepos]
  | cons r rs ih =>
    simp only [runRepos]
    rw [ih]
    rcases hr : fetch r with e | cs
    · rw [stepRepo_err v st hr]
      cases v <;> simp [List.filterMap_cons, warnOf, hr]
    · by_cases hcs : cs = []
      · subst hcs
        rw [stepRepo_empty v st hr]
        cases v <;> simp [List.filterMap_cons, warnOf, hr]
      · rw [stepRepo_ok v st hr hcs]
        have hlen : cs.length ≠ 0 := fun h0 => hcs (List.length_eq_zero.mp h0)
        cases v <;> simp [List.filterMap_cons, warnOf, hr, hlen]

/-! ## Pagination walk characterizations -/
theorem ghWalk_spec (pages : Nat → List GHRawCommit) :
    ∀ fuel page,
      (ghWalk (fun p => .ok (pages p)) page fuel).2 ≤ fuel ∧
      (ghWalk (fun p => .ok (pages p)) page fuel).1 =
        .ok (((List.range' page (ghWalk (fun p => .ok (pages p)) page fuel).2).map
          (fun p => (pages p).map ghConv)).flatten) := by
  intro fuel
  induction fuel with
  | zero => intro page; exact ⟨Nat.le_refl 0, by simp [ghWalk]⟩
  | succ fuel ih =>
    intro page
    by_cases h0 : (pages page).length = 0
    · have hnil : pages page = [] := List.length_eq_zero.mp h0
      constructor
      · simp [ghWalk, h0]
      · simp [ghWalk, h0, List.range'_succ, hnil]
    · by_cases hcap : 10 < page + 1
      · constructor
        · simp [ghWalk, h0, hcap]
        · simp [ghWalk, h0, hcap, List.range'_succ]
      · obtain ⟨ihc, ihr⟩ := ih (page + 1)
        rcases hw : ghWalk (fun p => .ok (pages p)) (page + 1) fuel with ⟨res, n⟩
        rw [hw] at ihc ihr
        simp only at ihc ihr
        subst ihr
        constructor
        · simp [ghWalk, h0, hcap, hw]
          omega
        · simp [ghWalk, h0, hcap, hw, List.range'_succ]

theorem bbWalk_spec (env : Option String → BBResp) :
    ∀ fuel cursor pageCount,
      (bbWalk (fun c => .ok (env c)) cursor pageCount fuel).2 ≤ fuel ∧
      (bbWalk (fun c => .ok (env c)) cursor pageCount fuel).1 =
        .ok (((bbVisited env cursor pageCount fuel).map
          (fun vs => vs.map bbConv)).flatten) := by
  intro fuel
  induction fuel with
  | zero => intro cursor pageCount; exact ⟨Nat.le_refl 0, by simp [bbWalk, bbVisited]⟩
  | succ fuel ih =>
    intro cursor pageCount
    rcases hn : (env cursor).next with _ | url
    · constructor
      · simp [bbWalk, hn]
      · simp [bbWalk, bbVisited, hn]
    · by_cases hcap : 10 ≤ pageCount + 1
      · constructor
        · simp [bbWalk, hn, hcap]
        · simp [bbWalk, bbVisited, hn, hcap]
      · obtain ⟨ihc, ihr⟩ := ih (some url) (pageCount + 1)
        rcases hw : bbWalk (fun c => .ok (env c)) (some url) (pageCount + 1) fuel
          with ⟨res, n⟩
        rw [hw] at ihc ihr
        simp only at ihc ihr
        subst ihr
        constructor
        · simp [bbWalk, hn, hcap, hw]
          omega
        · simp [bbWalk, bbVisited, hn, hcap, hw]

/-! ## Orchestrator characterizations -/
theorem generateTimeline_explicit (v : Bool) (u p : String)
    (fr : Except String (List String)) (fetch : String → Except String (List Commit))
    {repos : List String} (hne : repos ≠ []) :
    generateTimeline v u p fr repos fetch =
      finishRun (runRepos v fetch repos initState) := by
  have hlen : ¬ repos.length = 0 := fun h0 => hne (List.length_eq_zero.mp h0)
  unfold generateTimeline resolveRepos
  rw [if_neg hlen]

theorem finishRun_ok {st res : RunState} (h : finishRun st = .ok res) : res = st := by
  unfold finishRun at h
  split at h
  · split at h <;> exact absurd h (by simp)
  · exact (Except.ok.inj h).symm

theorem generateTimeline_ok {v : Bool} {u p : String}
    {fr : Except String (List String)} {repos : List String}
    {fetch : String → Except String (List Commit)} {res : RunState}
    (h : generateTimeline v u p fr repos fetch = .ok res) :
    ∃ rs, res = runRepos v fetch rs initState := by
  unfold generateTimeline at h
  split at h
  · exact absurd h (by simp)
  · rename_i rs hrs
    exact ⟨rs, finishRun_ok h⟩

/-! ## The claims -/
/-- C1: for every list of commits (whose timestamps carry valid written
dates, as every platform-delivered ISO-8601 timestamp does),
`groupByDate` returns `labels` and `data` of equal length, with labels
strictly ascending by date, and the counts summing to the number of
input commits. -/
theorem claim_C1 (commits : List Commit)
    (h : ∀ c ∈ commits, c.date.date.valid = true) :
    (groupByDate commits).labels.length = (groupByDate commits).data.length ∧
    (groupByDate commits).labels.Pairwise
      (fun a b => daysFromCivil a < daysFromCivil b) ∧
    (groupByDate commits).data.sum = commits.length :=
  ⟨groupByDateBy_length _ _ commits, groupByDate_strictAscending h,
    groupByDateBy_sum _ _ commits⟩

/-- C1 witness: the theorem applied to a concrete commit list. -/
theorem claim_C1_witness :
    (∀ c ∈ commitsC1, c.date.date.valid = true) ∧
    ((groupByDate commitsC1).labels.length = (groupByDate commitsC1).data.length ∧
     (groupByDate commitsC1).labels.Pairwise
       (fun a b => daysFromCivil a < daysFromCivil b) ∧
     (groupByDate commitsC1).data.sum = commitsC1.length) :=
  ⟨by decide, claim_C1 commitsC1 (by decide)⟩

/-- C2: every run that produces a result reports a total of analyzed
commits equal to the sum over the produced series of that series'
counts. -/
theorem claim_C2 (v : Bool) (u p : String) (fr : Except String (List String))
    (repos : List String) (fetch : String → Except String (List Commit))
    (res : RunState) (h : generateTimeline v u p fr repos fetch = .ok res) :
    res.totalCommits = (res.datasets.map (fun d => d.data.sum)).sum := by
  obtain ⟨rs, rfl⟩ := generateTimeline_ok h
  rw [runRepos_totalCommits, runRepos_datasets]
  simp only [initState, List.nil_append, Nat.zero_add, List.map_map]
  refine congrArg List.sum (List.map_congr_left ?_).symm
  intro r hr
  show (groupByDate (commitsOf fetch r)).data.sum = (commitsOf fetch r).length
  exact groupByDateBy_sum _ _ _

/-- C2 witness: the theorem applied to a concrete run. -/
theorem claim_C2_witness :
    (∃ res, generateTimeline true "u" "github" (.ok []) ["bad", "empty", "good"] fetchC2 =
      .ok res ∧
      res.totalCommits = (res.datasets.map (fun d => d.data.sum)).sum) := by
  have hgen : generateTimeline true "u" "github" (.ok []) ["bad", "empty", "good"] fetchC2 =
      .ok (runRepos true fetchC2 ["bad", "empty", "good"] initState) := by
    rw [generateTimeline_explicit true "u" "github" (.ok []) fetchC2 (by simp)]
    unfold finishRun
    rw [if_neg (show ¬ (runRepos true fetchC2 ["bad", "empty", "good"]
      initState).datasets.length = 0 by decide)]
  exact ⟨_, hgen, claim_C2 true "u" "github" (.ok []) ["bad", "empty", "good"] fetchC2 _ hgen⟩

/-- Fuel-independent request bound for the GitHub walk, any environment. -/
theorem ghWalk_count_le (pages : Nat → Except String (List GHRawCommit)) :
    ∀ fuel page, (ghWalk pages page fuel).2 ≤ fuel := by
  intro fuel
  induction fuel with
  | zero => intro page; simp [ghWalk]
  | succ fuel ih =>
    intro page
    rcases hp : pages page with e | cs
    · simp [ghWalk, hp]
    · by_cases h0 : cs.length = 0
      · simp [ghWalk, hp, h0]
      · by_cases hcap : 10 < page + 1
        · simp [ghWalk, hp, h0, hcap]
        · have hc := ih (page + 1)
          rcases hw : ghWalk pages (page + 1) fuel with ⟨res, n⟩
          rw [hw] at hc
          rcases res with e | rest <;> simp [ghWalk, hp, h0, hcap, hw] <;> omega

/-- Fuel-independent request bound for the Bitbucket walk, any
environment. -/
theorem bbWalk_count_le (env : Option String → Except String BBResp) :
    ∀ fuel cursor pageCount, (bbWalk env cursor pageCount fuel).2 ≤ fuel := by
  intro fuel
  induction fuel with
  | zero => intro cursor pageCount; simp [bbWalk]
  | succ fuel ih =>
    intro cursor pageCount
    rcases he : env cursor with e | data
    · simp [bbWalk, he]
    · rcases hn : data.next with _ | url
      · simp [bbWalk, he, hn]
      · by_cases hcap : 10 ≤ pageCount + 1
        · simp [bbWalk, he, hn, hcap]
        · have hc := ih (some url) (pageCount + 1)
          rcases hw : bbWalk env (some url) (pageCount + 1) fuel with ⟨res, n⟩
          rw [hw] at hc
          rcases res with e | rest <;> simp [bbWalk, he, hn, hcap, hw] <;> omega

/-- C3: the commit page-walks of the GitHub and Bitbucket providers
issue at most 10 page requests in every environment and terminate (they
are total functions); on every failure-free page sequence they return
`.ok` — the cap is not an error — with the concatenation of the pages
they accumulated (converted commits, in page order). -/
theorem claim_C3 (envG : Nat → Except String (List GHRawCommit))
    (envB : Option String → Except String BBResp)
    (pagesG : Nat → List GHRawCommit) (pureB : Option String → BBResp) :
    (ghRequests envG ≤ 10 ∧
      fetchAllCommitsGH (fun page => .ok (pagesG page)) true =
        .ok (((List.range' 1 (ghRequests (fun page => .ok (pagesG page)))).map
          (fun page => (pagesG page).map ghConv)).flatten)) ∧
    (bbRequests envB ≤ 10 ∧
      fetchAllCommitsBB (fun cursor => .ok (pureB cursor)) true =
        .ok (((bbVisited pureB none 0 10).map
          (fun vs => vs.map bbConv)).flatten)) := by
  refine ⟨⟨ghWalk_count_le envG 10 1, ?_⟩, ⟨bbWalk_count_le envB 10 none 0, ?_⟩⟩
  · have hg := ghWalk_spec pagesG 10 1
    unfold fetchAllCommitsGH ghRequests
    rw [hg.2]
    simp
  · have hb := bbWalk_spec pureB 10 none 0
    unfold fetchAllCommitsBB
    rw [hb.2]
    simp

/-- C4: a failing repository is recorded in the error list with the
failure's message; every repository in the list is still processed; every
sibling whose fetch succeeds non-empty still contributes its dataset; and
the run still produces a result whenever any repository is kept. -/
theorem claim_C4 (v : Bool) (u p : String) (fr : Except String (List String))
    (repos : List String) (fetch : String → Except String (List Commit))
    (r e : String) (hmem : r ∈ repos) (hfail : fetch r = .error e) :
    (r, e) ∈ (runRepos v fetch repos initState).errors ∧
    (runRepos v fetch repos initState).processedRepos = repos.length ∧
    (∀ r' cs, r' ∈ repos → fetch r' = .ok cs → cs ≠ [] →
      mkDataset fetch r' ∈ (runRepos v fetch repos initState).datasets) ∧
    ((∃ r' ∈ repos, keeps fetch r' = true) →
      ∃ st, generateTimeline v u p fr repos fetch = .ok st) := by
  refine ⟨?_, ?_, ?_, ?_⟩
  · rw [runRepos_errors]
    simp only [initState, List.nil_append]
    exact List.mem_filterMap.mpr ⟨r, hmem, by simp [errOf, hfail]⟩
  · rw [runRepos_processed]
    simp [initState]
  · intro r' cs hmem' hok hne
    rw [runRepos_datasets]
    simp only [initState, List.nil_append]
    exact List.mem_map.mpr ⟨r', List.mem_filter.mpr ⟨hmem', keeps_ok hok hne⟩, rfl⟩
  · rintro ⟨r', hr', hk⟩
    have hne : repos ≠ [] := by
      intro h0
      rw [h0] at hmem
      simp at hmem
    rw [generateTimeline_explicit v u p fr fetch hne]
    have hmemf : r' ∈ repos.filter (keeps fetch) := List.mem_filter.mpr ⟨hr', hk⟩
    have hds : (runRepos v fetch repos initState).datasets ≠ [] := by
      rw [runRepos_datasets]
      simp only [initState, List.nil_append]
      intro hnil
      rw [List.map_eq_nil_iff] at hnil
      rw [hnil] at hmemf
      simp at hmemf
    have hlen : ¬ (runRepos v fetch repos initState).datasets.length = 0 :=
      fun h0 => hds (List.length_eq_zero.mp h0)
    unfold finishRun
    rw [if_neg hlen]
    exact ⟨_, rfl⟩

/-- C4 witness: the theorem applied to a concrete run with one failing
and one succeeding repository. -/
theorem claim_C4_witness :
    ("broken" ∈ ["broken", "fine"]) ∧ (fetchC4 "broken" = .error ("network down")) ∧
    (("broken", "network down") ∈
        (runRepos false fetchC4 ["broken", "fine"] initState).errors ∧
      (runRepos false fetchC4 ["broken", "fine"] initState).processedRepos =
        ["broken", "fine"].length ∧
      (∀ r' cs, r' ∈ ["broken", "fine"] → fetchC4 r' = .ok cs → cs ≠ [] →
        mkDataset fetchC4 r' ∈ (runRepos false fetchC4 ["broken", "fine"] initState).datasets) ∧
      ((∃ r' ∈ ["broken", "fine"], keeps fetchC4 r' = true) →
        ∃ st, generateTimeline false "u" "github" (.ok []) ["broken", "fine"] fetchC4 =
          .ok st)) :=
  ⟨by decide, by decide,
    claim_C4 false "u" "github" (.ok []) ["broken", "fine"] fetchC4 "broken"
      "network down" (by decide) (by decide)⟩

/-- C6: when no repository yields a non-empty series, the run fails, and
the failure message distinguishes — via the accumulated error records —
the all-failed-or-some-failed case from the all-empty case; the two
messages are distinct. -/
theorem claim_C6 (v : Bool) (u p : String) (fr : Except String (List String))
    (repos : List String) (fetch : String → Except String (List Commit))
    (hne : repos ≠ []) (hall : ∀ r ∈ repos, keeps fetch r = false) :
    generateTimeline v u p fr repos fetch =
      .error (if 0 < (repos.filterMap (errOf fetch)).length then msgAllFailed
        else msgNoCommits) ∧
    msgAllFailed ≠ msgNoCommits := by
  constructor
  · rw [generateTimeline_explicit v u p fr fetch hne]
    have hds : (runRepos v fetch repos initState).datasets = [] := by
      rw [runRepos_datasets]
      simp only [initState, List.nil_append]
      rw [List.filter_eq_nil_iff.mpr (by simpa using hall)]
      rfl
    have herr : (runRepos v fetch repos initState).errors =
        repos.filterMap (errOf fetch) := by
      rw [runRepos_errors]
      simp [initState]
    unfold finishRun
    rw [hds, herr]
    simp only [List.length_nil, if_pos rfl]
    by_cases hc : 0 < (repos.filterMap (errOf fetch)).length <;> simp [hc]
  · decide

/-- C6 witness: the theorem applied to a run where every repository
failed or was empty. -/
theorem claim_C6_witness :
    ((["gone", "empty"] : List String) ≠ []) ∧
    (∀ r ∈ ["gone", "empty"], keeps fetchC6 r = false) ∧
    (generateTimeline true "u" "gitlab" (.ok []) ["gone", "empty"] fetchC6 =
        .error (if 0 < (["gone", "empty"].filterMap (errOf fetchC6)).length
          then msgAllFailed else msgNoCommits) ∧
      msgAllFailed ≠ msgNoCommits) :=
  ⟨by decide, by decide,
    claim_C6 true "u" "gitlab" (.ok []) ["gone", "empty"] fetchC6
      (by decide) (by decide)⟩

/-- C5 counterexample: the only structured skip-record list the run
keeps is `errors`, and an empty repository is never added to it — after
a run over `r1` (empty) and `r2` (one commit), `errors` is `[]`, so `r1`
does not appear in any skipped-repositories list with reason "no commits
found" (the only trace is the skipped counter and, when verbose, a
console warning reading `No commits found`). -/
theorem claim_C5_counterexample :
    (fetchC5 "r1" = .ok []) ∧
    (runRepos true fetchC5 ["r1", "r2"] initState).errors = [] ∧
    (runRepos true fetchC5 ["r1", "r2"] initState).skippedRepos = 1 := by
  refine ⟨by decide, by decide, by decide⟩

/-- C5 (amended): a repository whose fetch succeeds empty contributes no
series and is never added to the structured error-record list; it only
increments the skipped counter and, when verbose, emits a console
warning with reason `No commits found`; processing continues over the
whole list. -/
theorem claim_C5 (repos : List String) (fetch : String → Except String (List Commit))
    (r : String) (hmem : r ∈ repos) (hempty : fetch r = .ok []) :
    (r, "No commits found") ∈ (runRepos true fetch repos initState).warnings ∧
    (∀ m : String, (r, m) ∉ (runRepos true fetch repos initState).errors) ∧
    (∀ ds ∈ (runRepos true fetch repos initState).datasets, ds.label ≠ r) ∧
    0 < (runRepos true fetch repos initState).skippedRepos ∧
    (runRepos true fetch repos initState).processedRepos = repos.length := by
  refine ⟨?_, ?_, ?_, ?_, ?_⟩
  · rw [runRepos_warnings]
    simp only [initState, List.nil_append, if_pos rfl]
    exact List.mem_filterMap.mpr ⟨r, hmem, by simp [warnOf, hempty]⟩
  · intro m hm
    rw [runRepos_errors] at hm
    simp only [initState, List.nil_append] at hm
    obtain ⟨r', hr', he⟩ := List.mem_filterMap.mp hm
    unfold errOf at he
    rcases hfr : fetch r' with e | cs
    · rw [hfr] at he
      have : r' = r := congrArg Prod.fst (Option.some.inj he)
      rw [this, hempty] at hfr
      exact Except.noConfusion hfr
    · rw [hfr] at he
      exact Option.noConfusion he
  · intro ds hds hlabel
    rw [runRepos_datasets] at hds
    simp only [initState, List.nil_append] at hds
    obtain ⟨r', hr', rfl⟩ := List.mem_map.mp hds
    have hr'' := List.mem_filter.mp hr'
    have : r' = r := hlabel
    rw [this, keeps_empty hempty] at hr''
    exact Bool.noConfusion hr''.2
  · rw [runRepos_skipped]
    simp only [initState, Nat.zero_add]
    exact List.countP_pos_iff.mpr ⟨r, hmem, by simp [keeps_empty hempty]⟩
  · rw [runRepos_processed]
    simp [initState]

/-- C5 witness: the amended theorem applied to the concrete run of the
counterexample. -/
theorem claim_C5_witness :
    ("r1" ∈ ["r1", "r2"]) ∧ (fetchC5 "r1" = .ok []) ∧
    (("r1", "No commits found") ∈ (runRepos true fetchC5 ["r1", "r2"] initState).warnings ∧
      (∀ m : String, ("r1", m) ∉ (runRepos true fetchC5 ["r1", "r2"] initState).errors) ∧
      (∀ ds ∈ (runRepos true fetchC5 ["r1", "r2"] initState).datasets, ds.label ≠ "r1") ∧
      0 < (runRepos true fetchC5 ["r1", "r2"] initState).skippedRepos ∧
      (runRepos true fetchC5 ["r1", "r2"] initState).processedRepos =
        ["r1", "r2"].length) :=
  ⟨by decide, by decide, claim_C5 ["r1", "r2"] fetchC5 "r1" (by decide) (by decide)⟩

/-- C7 counterexample: two commits on the same UTC calendar day end up
in two different buckets of the string-based `groupByDate`
(`timeline.js` slices the first ten characters of the timestamp string,
which is the day in the timestamp's own offset, not the UTC day), so the
claimed same-UTC-day merge fails. -/
theorem claim_C7_counterexample :
    commitZ.date.utcDay = commitOff.date.utcDay ∧
    (groupByDate [commitZ, commitOff]).labels =
      [⟨2024, 3, 1⟩, ⟨2024, 3, 2⟩] := by
  refine ⟨by decide, by decide⟩

/-- C7 (amended): `groupByDate` buckets commits by the calendar day
written in the timestamp string (its first ten characters): commits with
one written day always merge into a single bucket; for timestamps
expressed in UTC (zero offset, as GitHub delivers them) the written day
is exactly the UTC calendar day; and the `Date`-based variant
(`src/timeline.ts`, via `toISOString`) buckets by the UTC day itself. -/
theorem claim_C7 :
    (∀ (commits : List Commit) (k : CivilDate), commits ≠ [] →
      (∀ c ∈ commits, c.date.date = k) →
      groupByDate commits = ⟨[k], [commits.length]⟩) ∧
    (∀ t : Timestamp, t.offsetMinutes = 0 → t.hour ≤ 23 → t.minute ≤ 59 →
      t.second ≤ 59 → t.utcDay = (daysFromCivil t.date : Int)) ∧
    (∀ (commits : List CommitTs) (k : Int), commits ≠ [] →
      (∀ c ∈ commits, tsUtcDay c.date = k) →
      groupByDateTs commits = ⟨[k], [commits.length]⟩) := by
  refine ⟨fun commits k hne hsame => groupByDateBy_single _ _ hne hsame,
    fun t hoff hh hm hs => ?_,
    fun commits k hne hsame => groupByDateBy_single _ _ hne hsame⟩
  unfold Timestamp.utcDay Timestamp.epochSeconds
  rw [hoff, Int.fdiv_eq_ediv _ (by omega)]
  omega

/-- C7 witness: the amended theorem applied to concrete inputs — two
same-written-day commits merge into one bucket, and a concrete UTC
timestamp's UTC day is its written day. -/
theorem claim_C7_witness :
    (([⟨⟨⟨2024, 3, 1⟩, 1, 0, 0, 0⟩, "a", "x", false⟩,
       ⟨⟨⟨2024, 3, 1⟩, 22, 5, 6, 0⟩, "b", "y", false⟩] : List Commit) ≠ []) ∧
    groupByDate
      [⟨⟨⟨2024, 3, 1⟩, 1, 0, 0, 0⟩, "a", "x", false⟩,
       ⟨⟨⟨2024, 3, 1⟩, 22, 5, 6, 0⟩, "b", "y", false⟩] = ⟨[⟨2024, 3, 1⟩], [2]⟩ ∧
    commitZ.date.utcDay = (daysFromCivil ⟨2024, 3, 1⟩ : Int) :=
  ⟨by decide,
    claim_C7.1 _ ⟨2024, 3, 1⟩ (by decide) (by decide),
    claim_C7.2.1 commitZ.date (by decide) (by decide) (by decide) (by decide)⟩

/-- C8 counterexample: the GitLab variant applies no emptiness filter —
a project whose repository is empty (`empty_repo = true`, the platform's
zero-commit signal) is still returned, so the claim that repositories
with zero size / zero commit count are excluded on every platform
fails. -/
theorem claim_C8_counterexample :
    glProjEmpty.empty_repo = true ∧
    gitlabFetchRepos (.ok [⟨1⟩]) (fun _ => .ok [glProjEmpty]) =
      .ok ["empty-project"] := by
  refine ⟨by decide, by decide⟩

/-- C8 (amended): the GitHub variant excludes forks and zero-size
repositories, the Bitbucket variant excludes zero-size repositories, the
SourceHut variant excludes zero-commit-count repositories, and the
GitLab variant applies no filter at all — every listed project is
returned as-is. -/
theorem claim_C8 :
    (∀ (u : String) (ri : Option RateLimitInfo) (body : List GHRepo),
      githubFetchRepos u ri (.ok body) =
        .ok ((body.filter (fun r => (! r.fork) && decide (0 < r.size))).map
          (fun r => r.name))) ∧
    (∀ (u : String) (body : List BBRepo),
      bitbucketFetchRepos u (.ok body) =
        .ok ((body.filter (fun r => decide (0 < r.size))).map (fun r => r.slug))) ∧
    (∀ (u : String) (body : List SHRepo),
      sourcehutFetchRepos u (.ok body) =
        .ok ((body.filter (fun r => decide (0 < r.commits_count))).map
          (fun r => r.name))) ∧
    (∀ (u : GLUser) (us : List GLUser) (body : List GLProject),
      gitlabFetchRepos (.ok (u :: us)) (fun _ => .ok body) =
        .ok (body.map (fun p => p.path))) :=
  ⟨fun _ _ _ => rfl, fun _ _ => rfl, fun _ _ => rfl, fun _ _ _ => rfl⟩

/-- C10: when the GitLab identity lookup succeeds at the HTTP level but
returns an empty user list, `fetchRepos` fails with `User not found`
instead of returning an empty repository list. -/
theorem claim_C10 (projResp : Nat → HttpResp (List GLProject)) :
    gitlabFetchRepos (.ok []) projResp = .error "User not found" := rfl

/-- C9: for a non-empty dataset list, `calculateStats` ranks the
per-repository totals descending by commit count with a stable sort
(within one total, the original dataset order is preserved — the filter
characterization of stability) and truncates to the top 5. -/
theorem claim_C9 (datasets : List ChartDataset) (hne : datasets ≠ []) :
    ∃ s, calculateStats datasets = some s ∧
      s.topRepos = (sortByKey negTotal (statsTotals datasets)).take 5 ∧
      (sortByKey negTotal (statsTotals datasets)).Pairwise
        (fun a b => b.commits ≤ a.commits) ∧
      (∀ k : Nat, (sortByKey negTotal (statsTotals datasets)).filter
          (fun rT => rT.commits == k) =
        (statsTotals datasets).filter (fun rT => rT.commits == k)) ∧
      s.topRepos.length = min 5 datasets.length := by
  have hlen : ¬ datasets.length = 0 := fun h0 => hne (List.length_eq_zero.mp h0)
  unfold calculateStats
  rw [if_neg hlen]
  refine ⟨_, rfl, rfl, ?_, ?_, ?_⟩
  · exact (sortByKey_pairwise negTotal (statsTotals datasets)).imp
      (fun {a b} h => by unfold negTotal at h; omega)
  · intro k
    have hpred : ∀ l : List StatsRepo,
        l.filter (fun rT => rT.commits == k) =
          l.filter (fun rT => negTotal rT == -(k : Int)) := by
      intro l
      refine List.filter_congr ?_
      intro a _
      rw [Bool.eq_iff_iff]
      simp only [beq_iff_eq, negTotal]
      omega
    rw [hpred, hpred]
    exact sortByKey_filter negTotal (-(k : Int)) (statsTotals datasets)
  · show ((sortByKey negTotal (statsTotals datasets)).take 5).length =
      min 5 datasets.length
    rw [List.length_take, (sortByKey_perm negTotal (statsTotals datasets)).length_eq]
    simp [statsTotals]

/-- C9 witness: the theorem applied to the concrete dataset list. -/
theorem claim_C9_witness :
    (dsC9 ≠ []) ∧
    (∃ s, calculateStats dsC9 = some s ∧
      s.topRepos = (sortByKey negTotal (statsTotals dsC9)).take 5 ∧
      (sortByKey negTotal (statsTotals dsC9)).Pairwise
        (fun a b => b.commits ≤ a.commits) ∧
      (∀ k : Nat, (sortByKey negTotal (statsTotals dsC9)).filter
          (fun rT => rT.commits == k) =
        (statsTotals dsC9).filter (fun rT => rT.commits == k)) ∧
      s.topRepos.length = min 5 dsC9.length) :=
  ⟨by decide, claim_C9 dsC9 (by decide)⟩

end Timeline
